import Mathlib

/-!
Verification of the `ReadersWriters` synchronization primitive from
`concurrency/reader-writer/src/reader_writer/reader_writer.py`.

The Lock State is embedded as a Lean structure whose counter fields are `Int`
(Python integers are unbounded and signed, so misuse can drive them negative).
The four core operations are embedded twice, faithfully to the source:

* as direct functions on the state (`start_read`, `end_read`, `start_write`,
  `end_write`), where the two acquire operations return `Option State` —
  `none` models the execution that would block on the condition variable, and
  `some` models the non-blocking path where the wait-loop predicate is false —
  and the two release operations also report which condition-variable
  notification the source issues;

* as a small-step transition system (`Op`, `step`, `run`) in which each
  acquire is split into its two atomic phases (registering as waiting under
  the mutex, and completing the acquisition once the wait-loop predicate is
  false), which is what the interleaved multi-threaded executions of the
  source look like from the point of view of the protected counters.
-/

namespace ReadersWriters

/-- The Lock State of `ReadersWriters.__init__`: the five fields protected by
the internal mutex. Counters are `Int` because the Python fields are plain
(signed, unbounded) integers. -/
structure State where
  active_readers : Int
  waiting_readers : Int
  is_writing : Bool
  waiting_writers : Int
  shared_resource : Int
deriving DecidableEq, Repr

/-- The initial state built by `__init__`: all counters zero, not writing. -/
def init : State :=
  { active_readers := 0
    waiting_readers := 0
    is_writing := false
    waiting_writers := 0
    shared_resource := 0 }

/-- Which condition-variable notification a release operation issues:
`notify` on the write condition, `notify_all` on the read condition, or
nothing. -/
inductive Signal where
  | notifyOneWrite
  | notifyAllRead
  | noSignal
deriving DecidableEq, Repr

/-- `start_read`: increment `waiting_readers`; if the wait-loop predicate
`is_writing or waiting_writers > 0` holds the caller blocks (modelled as
`none`); otherwise decrement `waiting_readers` and increment
`active_readers`. -/
def start_read (s : State) : Option State :=
  let s1 : State := { s with waiting_readers := s.waiting_readers + 1 }
  if s1.is_writing ∨ s1.waiting_writers > 0 then
    none
  else
    some { s1 with
            waiting_readers := s1.waiting_readers - 1
            active_readers := s1.active_readers + 1 }

/-- `end_read`: decrement `active_readers`; if the decremented count equals
zero, `notify` one waiter on the write condition variable. -/
def end_read (s : State) : State × Signal :=
  let s1 : State := { s with active_readers := s.active_readers - 1 }
  if s1.active_readers = 0 then
    (s1, Signal.notifyOneWrite)
  else
    (s1, Signal.noSignal)

/-- `start_write`: increment `waiting_writers`; if the wait-loop predicate
`is_writing or active_readers > 0` holds the caller blocks (modelled as
`none`); otherwise decrement `waiting_writers` and set `is_writing`. -/
def start_write (s : State) : Option State :=
  let s1 : State := { s with waiting_writers := s.waiting_writers + 1 }
  if s1.is_writing ∨ s1.active_readers > 0 then
    none
  else
    some { s1 with
            waiting_writers := s1.waiting_writers - 1
            is_writing := true }

/-- `end_write`: clear `is_writing`; if `waiting_writers > 0`, `notify` one
waiter on the write condition variable, otherwise `notify_all` on the read
condition variable. -/
def end_write (s : State) : State × Signal :=
  let s1 : State := { s with is_writing := false }
  if s1.waiting_writers > 0 then
    (s1, Signal.notifyOneWrite)
  else
    (s1, Signal.notifyAllRead)

/-- `read_resource`: acquire the read lock via `start_read` (RAII `ReadLock`),
log the current `shared_resource` (returned here as the observed value), and
release via `end_read` when the scope ends. `none` models the execution on
which `start_read` would block. -/
def read_resource (s : State) : Option (State × Int) :=
  match start_read s with
  | none => none
  | some s1 => some ((end_read s1).1, s1.shared_resource)

/-- `write_resource`: acquire the write lock via `start_write` (RAII
`WriteLock`), assign `shared_resource := value`, and release via `end_write`
when the scope ends, reporting that release's notification. `none` models the
execution on which `start_write` would block. -/
def write_resource (s : State) (value : Int) : Option (State × Signal) :=
  match start_write s with
  | none => none
  | some s1 => some (end_write { s1 with shared_resource := value })

/-- The atomic phases of the four core operations as seen through the mutex:
each acquire is split into registering as a waiter and completing the
acquisition once the wait-loop predicate is false. -/
inductive Op where
  | beginRead
  | completeRead
  | endRead
  | beginWrite
  | completeWrite
  | endWrite
deriving DecidableEq, Repr

/-- Enabledness of each atomic phase. A `complete` phase requires the
wait-loop predicate of the source to be false and a corresponding waiter to
exist; a release phase requires a matching prior acquisition (the caller
contract of `end_read`/`end_write`). -/
def enabled (s : State) : Op → Bool
  | Op.beginRead => true
  | Op.completeRead =>
      !s.is_writing && s.waiting_writers = 0 && 1 ≤ s.waiting_readers
  | Op.endRead => 1 ≤ s.active_readers
  | Op.beginWrite => true
  | Op.completeWrite =>
      !s.is_writing && s.active_readers = 0 && 1 ≤ s.waiting_writers
  | Op.endWrite => s.is_writing

/-- The effect of each atomic phase on the Lock State, transcribed from the
counter updates of the source. -/
def applyOp (s : State) : Op → State
  | Op.beginRead => { s with waiting_readers := s.waiting_readers + 1 }
  | Op.completeRead =>
      { s with
          waiting_readers := s.waiting_readers - 1
          active_readers := s.active_readers + 1 }
  | Op.endRead => { s with active_readers := s.active_readers - 1 }
  | Op.beginWrite => { s with waiting_writers := s.waiting_writers + 1 }
  | Op.completeWrite =>
      { s with
          waiting_writers := s.waiting_writers - 1
          is_writing := true }
  | Op.endWrite => { s with is_writing := false }

/-- One step of the transition system: fire `op` if it is enabled. -/
def step (s : State) (op : Op) : Option State :=
  if enabled s op then some (applyOp s op) else none

/-- Run a sequence of atomic phases, failing if any phase is not enabled. -/
def run (s : State) : List Op → Option State
  | [] => some s
  | op :: ops =>
      match step s op with
      | none => none
      | some s1 => run s1 ops

/-- Number of occurrences of a given atomic phase in a trace. -/
def countOp (o : Op) : List Op → Nat
  | [] => 0
  | x :: xs => (if x = o then 1 else 0) + countOp o xs

/-- The writing flag as an integer, to state counting identities uniformly. -/
def writingInt (s : State) : Int :=
  if s.is_writing then 1 else 0

/-- A single step preserves the safety invariant of the Lock State:
counters non-negative and writer exclusivity. -/
theorem step_preserves_inv (s0 s1 : State) (op : Op)
    (hstep : step s0 op = some s1)
    (ha : 0 ≤ s0.active_readers) (hw : 0 ≤ s0.waiting_readers)
    (hww : 0 ≤ s0.waiting_writers)
    (hx : s0.is_writing = true → s0.active_readers = 0) :
    0 ≤ s1.active_readers ∧ 0 ≤ s1.waiting_readers ∧
    0 ≤ s1.waiting_writers ∧
    (s1.is_writing = true → s1.active_readers = 0) := by
  obtain ⟨a, w, iw, ww, r⟩ := s0
  rw [step] at hstep
  split at hstep
  case isFalse => exact absurd hstep (by simp)
  case isTrue hen =>
    injection hstep with hstep
    subst hstep
    simp only at ha hw hww hx
    cases op
    case beginRead =>
      simp only [applyOp]
      exact ⟨ha, by omega, hww, hx⟩
    case completeRead =>
      simp only [enabled, Bool.and_eq_true, Bool.not_eq_true',
        decide_eq_true_eq] at hen
      obtain ⟨⟨hiw, _⟩, hwr⟩ := hen
      simp only [applyOp]
      refine ⟨by omega, by omega, hww, ?_⟩
      intro hcontra
      exact absurd hcontra (by simp [hiw])
    case endRead =>
      simp only [enabled, decide_eq_true_eq] at hen
      simp only [applyOp]
      refine ⟨by omega, hw, hww, ?_⟩
      intro hcontra
      have h0 := hx hcontra
      omega
    case beginWrite =>
      simp only [applyOp]
      exact ⟨ha, hw, by omega, hx⟩
    case completeWrite =>
      simp only [enabled, Bool.and_eq_true, Bool.not_eq_true',
        decide_eq_true_eq] at hen
      obtain ⟨⟨hiw, ha0⟩, hww1⟩ := hen
      simp only [applyOp]
      exact ⟨ha, hw, by omega, fun _ => ha0⟩
    case endWrite =>
      simp only [applyOp]
      refine ⟨ha, hw, hww, ?_⟩
      intro hcontra
      exact absurd hcontra (by simp)

/-- Running any enabled trace preserves the safety invariant. -/
theorem run_preserves_inv (tr : List Op) :
    ∀ s0 s : State, run s0 tr = some s →
    0 ≤ s0.active_readers → 0 ≤ s0.waiting_readers →
    0 ≤ s0.waiting_writers →
    (s0.is_writing = true → s0.active_readers = 0) →
    0 ≤ s.active_readers ∧ 0 ≤ s.waiting_readers ∧
    0 ≤ s.waiting_writers ∧
    (s.is_writing = true → s.active_readers = 0) := by
  induction tr with
  | nil =>
      intro s0 s hrun ha hw hww hx
      rw [run] at hrun
      injection hrun with hrun
      subst hrun
      exact ⟨ha, hw, hww, hx⟩
  | cons op ops ih =>
      intro s0 s hrun ha hw hww hx
      rw [run] at hrun
      cases hstep : step s0 op with
      | none => rw [hstep] at hrun; exact absurd hrun (by simp)
      | some s1 =>
          rw [hstep] at hrun
          obtain ⟨ha1, hw1, hww1, hx1⟩ :=
            step_preserves_inv s0 s1 op hstep ha hw hww hx
          exact ih s1 s hrun ha1 hw1 hww1 hx1

/-- C1: reader/writer mutual exclusion and counter non-negativity are
invariants of every Lock State reachable from the initial state by a
sequence of atomic phases in which each acquisition completes only when its
wait-loop predicate is false and each release matches a prior acquisition:
`is_writing` implies `active_readers = 0`, and the three counters are
non-negative. -/
theorem reachable_state_invariant (tr : List Op) (s : State)
    (hrun : run init tr = some s) :
    (s.is_writing = true → s.active_readers = 0) ∧
    0 ≤ s.active_readers ∧ 0 ≤ s.waiting_readers ∧
    0 ≤ s.waiting_writers := by
  obtain ⟨ha, hw, hww, hx⟩ :=
    run_preserves_inv tr init s hrun (by decide) (by decide) (by decide)
      (by decide)
  exact ⟨hx, ha, hw, hww⟩

/-- Witness for `reachable_state_invariant`: a concrete trace in which a
reader fully acquires, a writer queues, the reader releases, and the writer
acquires. -/
theorem reachable_state_invariant_witness :
    ({ active_readers := 0, waiting_readers := 0, is_writing := true,
       waiting_writers := 0, shared_resource := 0 : State }.is_writing
        = true →
      ({ active_readers := 0, waiting_readers := 0, is_writing := true,
         waiting_writers := 0, shared_resource := 0 : State }.active_readers
        = 0)) ∧
    (0 : Int) ≤ 0 ∧ (0 : Int) ≤ 0 ∧ (0 : Int) ≤ 0 :=
  reachable_state_invariant
    [Op.beginRead, Op.completeRead, Op.beginWrite, Op.endRead,
     Op.completeWrite]
    { active_readers := 0, waiting_readers := 0, is_writing := true,
      waiting_writers := 0, shared_resource := 0 }
    (by decide)

/-- No atomic phase other than `completeWrite` decreases `waiting_writers`. -/
theorem step_waiting_writers_mono (s0 s1 : State) (op : Op)
    (hstep : step s0 op = some s1) (hne : op ≠ Op.completeWrite) :
    s0.waiting_writers ≤ s1.waiting_writers := by
  rw [step] at hstep
  split at hstep
  case isFalse => exact absurd hstep (by simp)
  case isTrue =>
    injection hstep with hstep
    subst hstep
    cases op
    case completeWrite => exact absurd rfl hne
    all_goals simp only [applyOp] ; omega

/-- While a writer is waiting and no writer completes an acquisition, no
reader completes an acquisition either. -/
theorem no_read_completion_while_writer_waits (tr : List Op) :
    ∀ s0 s : State, 0 < s0.waiting_writers → Op.completeWrite ∉ tr →
    run s0 tr = some s → Op.completeRead ∉ tr := by
  induction tr with
  | nil => intro s0 s _ _ _ ; simp
  | cons op ops ih =>
      intro s0 s hww hnw hrun
      rw [run] at hrun
      cases hstep : step s0 op with
      | none => rw [hstep] at hrun ; exact absurd hrun (by simp)
      | some s1 =>
          rw [hstep] at hrun
          simp only [List.mem_cons, not_or] at hnw ⊢
          obtain ⟨hop, hops⟩ := hnw
          refine ⟨?_, ?_⟩
          · intro hopeq
            rw [← hopeq] at hstep
            rw [step] at hstep
            split at hstep
            case isTrue hen =>
              simp only [enabled, Bool.and_eq_true, Bool.not_eq_true',
                decide_eq_true_eq] at hen
              omega
            case isFalse => exact absurd hstep (by simp)
          · have hmono := step_waiting_writers_mono s0 s1 op hstep
              (fun hopeq => hop (hopeq ▸ rfl))
            exact ih s1 s (by omega) hops hrun

/-- C2: a waiting reader completes its acquisition only when `is_writing` is
false and `waiting_writers = 0`; consequently, from any state with a queued
writer, no reader completes an acquisition before some writer does. -/
theorem writer_preference (s0 s t t' : State) (tr : List Op)
    (hww : 0 < s0.waiting_writers)
    (hnw : Op.completeWrite ∉ tr)
    (hrun : run s0 tr = some s)
    (hstep : step t Op.completeRead = some t') :
    Op.completeRead ∉ tr ∧
    t.is_writing = false ∧ t.waiting_writers = 0 := by
  refine ⟨no_read_completion_while_writer_waits tr s0 s hww hnw hrun, ?_⟩
  rw [step] at hstep
  split at hstep
  case isTrue hen =>
    simp only [enabled, Bool.and_eq_true, Bool.not_eq_true',
      decide_eq_true_eq] at hen
    exact ⟨hen.1.1, hen.1.2⟩
  case isFalse => exact absurd hstep (by simp)

/-- Witness for `writer_preference`: one writer queued, a reader registers as
waiting (but cannot complete), while at an unrelated state with no queued
writer a reader does complete. -/
theorem writer_preference_witness :
    Op.completeRead ∉ [Op.beginRead] ∧
    ({ active_readers := 0, waiting_readers := 1, is_writing := false,
       waiting_writers := 0, shared_resource := 0 : State }).is_writing
        = false ∧
    ({ active_readers := 0, waiting_readers := 1, is_writing := false,
       waiting_writers := 0, shared_resource := 0 : State }).waiting_writers
        = 0 :=
  writer_preference
    { active_readers := 0, waiting_readers := 0, is_writing := false,
      waiting_writers := 1, shared_resource := 0 }
    { active_readers := 0, waiting_readers := 1, is_writing := false,
      waiting_writers := 1, shared_resource := 0 }
    { active_readers := 0, waiting_readers := 1, is_writing := false,
      waiting_writers := 0, shared_resource := 0 }
    { active_readers := 1, waiting_readers := 0, is_writing := false,
      waiting_writers := 0, shared_resource := 0 }
    [Op.beginRead] (by decide) (by decide) (by decide) (by decide)

/-- Counting identities for any enabled trace: each Lock State field changes
by exactly the difference of the counts of the atomic phases that touch it. -/
theorem run_counting (tr : List Op) :
    ∀ s0 s : State, run s0 tr = some s →
      s.active_readers = s0.active_readers
          + (countOp Op.completeRead tr : Int)
          - (countOp Op.endRead tr : Int) ∧
      s.waiting_readers = s0.waiting_readers
          + (countOp Op.beginRead tr : Int)
          - (countOp Op.completeRead tr : Int) ∧
      s.waiting_writers = s0.waiting_writers
          + (countOp Op.beginWrite tr : Int)
          - (countOp Op.completeWrite tr : Int) ∧
      writingInt s = writingInt s0
          + (countOp Op.completeWrite tr : Int)
          - (countOp Op.endWrite tr : Int) ∧
      s.shared_resource = s0.shared_resource := by
  induction tr with
  | nil =>
      intro s0 s hrun
      rw [run] at hrun
      injection hrun with hrun
      subst hrun
      simp [countOp]
  | cons op ops ih =>
      intro s0 s hrun
      rw [run] at hrun
      cases hstep : step s0 op with
      | none => rw [hstep] at hrun ; exact absurd hrun (by simp)
      | some s1 =>
          rw [hstep] at hrun
          obtain ⟨iha, ihw, ihww, ihwi, ihr⟩ := ih s1 s hrun
          rw [step] at hstep
          split at hstep
          case isFalse => exact absurd hstep (by simp)
          case isTrue hen =>
            injection hstep with hstep
            obtain ⟨a, w, iw, ww, r⟩ := s0
            subst hstep
            cases op
            case beginRead =>
              simp [applyOp, countOp, writingInt] at iha ihw ihww ihwi ihr ⊢
              refine ⟨by omega, by omega, by omega, by omega, ihr⟩
            case completeRead =>
              simp [applyOp, countOp, writingInt] at iha ihw ihww ihwi ihr ⊢
              refine ⟨by omega, by omega, by omega, by omega, ihr⟩
            case endRead =>
              simp [applyOp, countOp, writingInt] at iha ihw ihww ihwi ihr ⊢
              refine ⟨by omega, by omega, by omega, by omega, ihr⟩
            case beginWrite =>
              simp [applyOp, countOp, writingInt] at iha ihw ihww ihwi ihr ⊢
              refine ⟨by omega, by omega, by omega, by omega, ihr⟩
            case completeWrite =>
              simp only [enabled, Bool.and_eq_true, Bool.not_eq_true',
                decide_eq_true_eq] at hen
              rw [hen.1.1] at ihwi ⊢
              simp [applyOp, countOp, writingInt] at iha ihw ihww ihwi ihr ⊢
              refine ⟨by omega, by omega, by omega, by omega, ihr⟩
            case endWrite =>
              simp only [enabled] at hen
              rw [hen] at ihwi ⊢
              simp [applyOp, countOp, writingInt] at iha ihw ihww ihwi ihr ⊢
              refine ⟨by omega, by omega, by omega, by omega, ihr⟩

/-- C7: any enabled trace from the initial state in which acquisitions and
releases are balanced — as many `completeRead` as `beginRead` and as many
`endRead` as `completeRead`, and likewise on the writer side — ends in the
idle state: no active or waiting readers, no waiting writers, not writing. -/
theorem balanced_trace_restores_idle (tr : List Op) (s : State)
    (hrun : run init tr = some s)
    (h1 : countOp Op.beginRead tr = countOp Op.completeRead tr)
    (h2 : countOp Op.completeRead tr = countOp Op.endRead tr)
    (h3 : countOp Op.beginWrite tr = countOp Op.completeWrite tr)
    (h4 : countOp Op.completeWrite tr = countOp Op.endWrite tr) :
    s.active_readers = 0 ∧ s.is_writing = false ∧
    s.waiting_readers = 0 ∧ s.waiting_writers = 0 := by
  obtain ⟨ha, hw, hww, hwi, _⟩ := run_counting tr init s hrun
  simp only [init] at ha hw hww hwi
  have hwz : writingInt s = 0 := by
    simp only [writingInt] at hwi ⊢
    simp at hwi
    omega
  have hbf : s.is_writing = false := by
    by_cases hb : s.is_writing = true
    · rw [writingInt, if_pos hb] at hwz
      exact absurd hwz (by decide)
    · exact Bool.not_eq_true _ ▸ hb
  exact ⟨by omega, hbf, by omega, by omega⟩

/-- Witness for `balanced_trace_restores_idle`: one full read cycle followed
by one full write cycle. -/
theorem balanced_trace_restores_idle_witness :
    init.active_readers = 0 ∧ init.is_writing = false ∧
    init.waiting_readers = 0 ∧ init.waiting_writers = 0 :=
  balanced_trace_restores_idle
    [Op.beginRead, Op.completeRead, Op.endRead,
     Op.beginWrite, Op.completeWrite, Op.endWrite]
    init (by decide) (by decide) (by decide) (by decide) (by decide)

/-- C3: `start_read`, called in a state where its wait-loop predicate is false
(`is_writing = false` and `waiting_writers = 0`), returns (rather than blocks)
with `active_readers` incremented by exactly one and every other field —
`waiting_readers` net-unchanged, `is_writing`, `waiting_writers`,
`shared_resource` — unchanged. -/
theorem start_read_contract (s : State)
    (h1 : s.is_writing = false) (h2 : s.waiting_writers = 0) :
    start_read s = some { s with active_readers := s.active_readers + 1 } := by
  obtain ⟨a, w, iw, ww, r⟩ := s
  simp only [start_read, State.mk.injEq] at *
  subst h1 h2
  simp

/-- Witness for `start_read_contract` at the initial state. -/
theorem start_read_contract_witness :
    start_read init = some { init with active_readers := 1 } :=
  start_read_contract init rfl rfl

/-- C4: `start_write`, called in a state where its wait-loop predicate is
false (`is_writing = false` and `active_readers = 0`), returns (rather than
blocks) with `is_writing` set to `true` and every other field —
`waiting_writers` net-unchanged, `active_readers`, `waiting_readers`,
`shared_resource` — unchanged. -/
theorem start_write_contract (s : State)
    (h1 : s.is_writing = false) (h2 : s.active_readers = 0) :
    start_write s = some { s with is_writing := true } := by
  obtain ⟨a, w, iw, ww, r⟩ := s
  simp only [start_write, State.mk.injEq] at *
  subst h1 h2
  simp

/-- Witness for `start_write_contract` at the initial state. -/
theorem start_write_contract_witness :
    start_write init = some { init with is_writing := true } :=
  start_write_contract init rfl rfl

/-- C5: for every Lock State, `end_write` sets `is_writing` to `false`,
leaves `active_readers`, `waiting_readers`, `waiting_writers` and
`shared_resource` unchanged, notifies exactly one waiter on the write
condition variable iff `waiting_writers > 0`, and otherwise notifies all
waiters on the read condition variable. -/
theorem end_write_contract (s : State) :
    (end_write s).1 = { s with is_writing := false } ∧
    ((end_write s).2 = Signal.notifyOneWrite ↔ 0 < s.waiting_writers) ∧
    (¬ 0 < s.waiting_writers → (end_write s).2 = Signal.notifyAllRead) := by
  obtain ⟨a, w, iw, ww, r⟩ := s
  by_cases h : 0 < ww <;> simp [end_write, h]

/-- C6: `end_read`, called with `active_readers ≥ 1` (a matching prior
acquisition), decrements `active_readers` by exactly one, leaves
`waiting_readers`, `waiting_writers`, `is_writing` and `shared_resource`
unchanged, and notifies one waiter on the write condition variable iff the
decremented count equals zero. -/
theorem end_read_contract (s : State) (h : 1 ≤ s.active_readers) :
    (end_read s).1 = { s with active_readers := s.active_readers - 1 } ∧
    ((end_read s).2 = Signal.notifyOneWrite ↔ s.active_readers - 1 = 0) ∧
    (s.active_readers - 1 ≠ 0 → (end_read s).2 = Signal.noSignal) := by
  obtain ⟨a, w, iw, ww, r⟩ := s
  by_cases hz : a - 1 = 0 <;> simp [end_read, hz]

/-- Witness for `end_read_contract` at a state with one active reader. -/
theorem end_read_contract_witness :
    (end_read { init with active_readers := 1 }).1 = init ∧
    ((end_read { init with active_readers := 1 }).2 = Signal.notifyOneWrite ↔
      (1 : Int) - 1 = 0) ∧
    ((1 : Int) - 1 ≠ 0 →
      (end_read { init with active_readers := 1 }).2 = Signal.noSignal) :=
  end_read_contract { init with active_readers := 1 } (by decide)

/-- C8: in any state where the read lock is acquirable (`is_writing = false`
and `waiting_writers = 0`), `read_resource` returns with the Lock State
net-unchanged — `shared_resource` is not modified and is the value observed
under the lock, and the `end_read` on the exit path restores
`active_readers` to its value before the call. -/
theorem read_resource_frame (s : State)
    (h1 : s.is_writing = false) (h2 : s.waiting_writers = 0) :
    read_resource s = some (s, s.shared_resource) := by
  obtain ⟨a, w, iw, ww, r⟩ := s
  simp only at h1 h2
  subst h1 h2
  simp [read_resource, start_read, end_read, apply_ite]

/-- Witness for `read_resource_frame` at the initial state. -/
theorem read_resource_frame_witness :
    read_resource init = some (init, init.shared_resource) :=
  read_resource_frame init rfl rfl

/-- C9 (Scenario C): `write_resource 42` on a fresh instance returns with
`shared_resource = 42`, `is_writing = false` and all counters zero, and the
final `end_write` notifies all waiting readers. -/
theorem write_resource_scenario_c :
    write_resource init 42 =
      some ({ init with shared_resource := 42 }, Signal.notifyAllRead) := by
  decide

/-- C10: an unmatched release is not detected: `end_read` on the initial
zeroed state returns normally (no error, no validation), drives
`active_readers` to `-1`, and issues no notification; `end_write` on the
initial state likewise returns normally, leaving the state unchanged and
notifying all readers. -/
theorem unmatched_release_corrupts_counters :
    end_read init = ({ init with active_readers := -1 }, Signal.noSignal) ∧
    end_write init = (init, Signal.notifyAllRead) := by
  decide

end ReadersWriters
